import Mathlib

/-!
Verification development for `check_git_untracked.py`.

The script scans the sibling directories of its own parent directory for
git repositories, runs `git status` in each, parses the human-readable
output into three lists (staged, modified, untracked), and prints a
summary with global totals.

We embed the script shallowly: lines of text are `List Char`, Python
string operations (`strip`, `startswith`, `split`, `in`, `lower`) are
modelled as executable Lean functions, the parsing loop of
`get_git_status` becomes a fold of a pure step function over the list of
lines, and the filesystem / subprocess environment of `main` is passed in
explicitly.
-/

namespace CheckGit

/-- Model of the Python substring test `pat in s`, on lists of characters. -/
def containsSub (pat s : List Char) : Bool := decide (pat <:+: s)

/-- Model of the Python `strip` method with no argument (remove whitespace
from both ends), on lists of characters. -/
def pyStrip (s : List Char) : List Char :=
  ((s.dropWhile Char.isWhitespace).reverse.dropWhile Char.isWhitespace).reverse

/-- Helper for `pySplit`: accumulates the current chunk (reversed). -/
def pySplitAux (sep : Char) : List Char → List Char → List (List Char)
  | acc, [] => [acc.reverse]
  | acc, c :: cs =>
      if c = sep then acc.reverse :: pySplitAux sep [] cs
      else pySplitAux sep (c :: acc) cs

/-- Model of the Python `split` method for a one-character separator: the
empty string yields `[[]]`, and trailing separators yield trailing empty
chunks, exactly as in Python. -/
def pySplit (sep : Char) (s : List Char) : List (List Char) := pySplitAux sep [] s

/-- Model of the Python one-shot colon split (maxsplit 1): locate the
first colon; `none` when the string has no colon, otherwise the part
before and the part after it. -/
def splitFirstColon : List Char → Option (List Char × List Char)
  | [] => none
  | c :: cs =>
      if c = ':' then some ([], cs)
      else (splitFirstColon cs).map (fun p => (c :: p.1, p.2))

/-- The three sections of `git status` output tracked by the parser. -/
inductive Sec where
  | staged
  | modified
  | untracked
deriving DecidableEq

/-- The `status_info` dictionary of `get_git_status`. -/
structure StatusInfo where
  modified : List (List Char)
  staged : List (List Char)
  untracked : List (List Char)
deriving DecidableEq

/-- Section header recognised for staged changes (line 46 of the script). -/
def headerStaged : List Char := "Changes to be committed:".data

/-- Section header recognised for unstaged changes (line 49). -/
def headerModified : List Char := "Changes not staged for commit:".data

/-- Section header recognised for untracked files (line 52). -/
def headerUntracked : List Char := "Untracked files:".data

/-- A line contains one of the three section-header strings. -/
def headerAny (line : List Char) : Bool :=
  containsSub headerStaged line || containsSub headerModified line ||
    containsSub headerUntracked line

/-- The hint test of lines 64-66: case-insensitive substring checks for
the three known help phrases. -/
def hintLine (line : List Char) : Bool :=
  let lw := line.map Char.toLower
  containsSub "use \"git".data lw ||
    containsSub "include in what will be committed".data lw ||
    containsSub "no changes added".data lw

/-- The loop state of `get_git_status`: the accumulated dictionary and
the `current_section` variable. -/
structure ParseState where
  info : StatusInfo
  current : Option Sec
deriving DecidableEq

/-- The empty `status_info` dictionary. -/
def emptyInfo : StatusInfo := ⟨[], [], []⟩

/-- The state before the first line is processed. -/
def initState : ParseState := ⟨emptyInfo, none⟩

/-- Append a recorded entry to the list of the given section. -/
def appendEntry (info : StatusInfo) (sec : Sec) (s : List Char) : StatusInfo :=
  match sec with
  | Sec.modified => { info with modified := info.modified ++ [s] }
  | Sec.staged => { info with staged := info.staged ++ [s] }
  | Sec.untracked => { info with untracked := info.untracked ++ [s] }

/-- The value stored for a stripped entry line (lines 77-88): in the
`modified` and `staged` sections a line with a colon is split at the
first colon and stored as `prefix.strip() ++ ": " ++ path.strip()`,
a line without a colon is stored verbatim; in the `untracked` section
the stripped line is stored as-is. -/
def entryValue (sec : Sec) (stripped : List Char) : List Char :=
  match sec with
  | Sec.untracked => stripped
  | _ =>
      match splitFirstColon stripped with
      | some p => pyStrip p.1 ++ ':' :: ' ' :: pyStrip p.2
      | none => stripped

/-- The extraction step of lines 73-88, reached by blank lines (which
record nothing since their stripped form is empty) and by indented
lines: strip the line, and record it under `sec` when the stripped text
is non-empty and does not start with an opening parenthesis. -/
def extractEntry (st : ParseState) (sec : Sec) (line : List Char) : ParseState :=
  if pyStrip line ≠ [] ∧ ¬ "(".data <+: pyStrip line then
    { st with info := appendEntry st.info sec (entryValue sec (pyStrip line)) }
  else st

/-- One iteration of the `for line in lines` loop of `get_git_status`
(lines 44-88): header detection, section termination, entry extraction. -/
def stepLine (st : ParseState) (line : List Char) : ParseState :=
  if containsSub headerStaged line then { st with current := some Sec.staged }
  else if containsSub headerModified line then { st with current := some Sec.modified }
  else if containsSub headerUntracked line then { st with current := some Sec.untracked }
  else
    match st.current with
    | none => st
    | some sec =>
        if pyStrip line = [] then
          extractEntry st sec line
        else if ¬ "\t".data <+: line ∧ ¬ "  ".data <+: line then
          if hintLine line then st
          else { st with current := none }
        else
          extractEntry st sec line

/-- The whole parsing loop: fold `stepLine` over the lines. -/
def parseLines (lines : List (List Char)) : ParseState :=
  lines.foldl stepLine initState

/-- The parsing part of `get_git_status` applied to the captured stdout
text (lines 33-94): split on newlines, run the loop, and return the
dictionary only when at least one of the three lists is non-empty. -/
def get_git_status_parse (output : List Char) : Option StatusInfo :=
  if (parseLines (pySplit '\n' output)).info.modified ≠ [] ∨
      (parseLines (pySplit '\n' output)).info.staged ≠ [] ∨
      (parseLines (pySplit '\n' output)).info.untracked ≠ [] then
    some (parseLines (pySplit '\n' output)).info
  else none

/-- Select one of the three lists of a `StatusInfo`. -/
def secList (info : StatusInfo) : Sec → List (List Char)
  | Sec.staged => info.staged
  | Sec.modified => info.modified
  | Sec.untracked => info.untracked

/-- Outcome of running the external `git status` subprocess in a
repository: either `subprocess.run` raises an exception (carrying its
message), or the process completes with an exit code and a captured
stdout text. -/
inductive ExecOutcome where
  | raised (msg : List Char)
  | completed (returncode : Int) (stdout : List Char)
deriving DecidableEq

/-- The message printed by the `except` handler of `get_git_status`
(line 97). -/
def errorLog (repo_path msg : List Char) : List Char :=
  "错误: 无法检查 ".data ++ repo_path ++ ": ".data ++ msg

/-- The subprocess run failed: either an exception was raised or the
exit code is non-zero. -/
def execFailed (e : ExecOutcome) : Bool :=
  match e with
  | ExecOutcome.raised _ => true
  | ExecOutcome.completed rc _ => rc ≠ 0

/-- The whole of `get_git_status` (lines 18-98), as a function of the
subprocess outcome: a non-zero exit code yields `none` with nothing
printed (lines 30-31); an exception yields `none` and prints the error
message (lines 96-98); otherwise the stdout text is parsed. The second
component collects the error messages printed to stdout. -/
def get_git_status (repo_path : List Char) (e : ExecOutcome) :
    Option StatusInfo × List (List Char) :=
  match e with
  | ExecOutcome.raised msg => (none, [errorLog repo_path msg])
  | ExecOutcome.completed rc out =>
      if rc ≠ 0 then (none, [])
      else (get_git_status_parse out, [])

/-- A filesystem model: the set of paths that are directories. -/
structure FS where
  dirs : List (List Char)
deriving DecidableEq

/-- Modelled `os.path.isdir`: the path is in the directory set. -/
def os_path_isdir (fs : FS) (p : List Char) : Bool := fs.dirs.contains p

/-- Modelled `os.path.join(a, b)` in the common case exercised by the
script: `a` is a directory path not ending in a separator and `b` is a
relative name, so the parts are joined with a single `/`. -/
def os_path_join (a b : List Char) : List Char := a ++ '/' :: b

/-- `is_git_repo` (lines 12-15): the folder contains a directory named
`.git` directly inside it. -/
def is_git_repo (fs : FS) (folder_path : List Char) : Bool :=
  os_path_isdir fs (os_path_join folder_path ".git".data)

/-- One element of `repos_with_changes` (lines 133-137). -/
structure RepoReport where
  name : List Char
  path : List Char
  status : StatusInfo
deriving DecidableEq

/-- The mutable state of the enumeration loop in `main` (lines 110-140):
the repository list, the reported repositories, the three totals, and
the error messages printed so far. -/
structure ScanAcc where
  git_repos : List (List Char)
  repos_with_changes : List RepoReport
  total_modified_count : Nat
  total_staged_count : Nat
  total_untracked_count : Nat
  log : List (List Char)
deriving DecidableEq

/-- The initial loop state of `main` (lines 110-114). -/
def initAcc : ScanAcc := ⟨[], [], 0, 0, 0, []⟩

/-- One iteration of the `for item in os.listdir(parent_dir)` loop of
`main` (lines 118-140): skip non-directories, classify via `is_git_repo`,
run `get_git_status`, and fold a non-absent report into the
accumulator. -/
def scanStep (fs : FS) (exec : List Char → ExecOutcome) (parent : List Char)
    (acc : ScanAcc) (item : List Char) : ScanAcc :=
  if ¬ os_path_isdir fs (os_path_join parent item) then acc
  else if is_git_repo fs (os_path_join parent item) then
    match (get_git_status (os_path_join parent item)
        (exec (os_path_join parent item))).1 with
    | some si =>
        { git_repos := acc.git_repos ++ [item],
          repos_with_changes := acc.repos_with_changes ++
            [⟨item, os_path_join parent item, si⟩],
          total_modified_count := acc.total_modified_count + si.modified.length,
          total_staged_count := acc.total_staged_count + si.staged.length,
          total_untracked_count := acc.total_untracked_count + si.untracked.length,
          log := acc.log ++ (get_git_status (os_path_join parent item)
            (exec (os_path_join parent item))).2 }
    | none =>
        { acc with
          git_repos := acc.git_repos ++ [item],
          log := acc.log ++ (get_git_status (os_path_join parent item)
            (exec (os_path_join parent item))).2 }
  else acc

/-- The enumeration loop of `main` over the listing of the parent
directory, in listing order. -/
def main_scan (fs : FS) (exec : List Char → ExecOutcome) (parent : List Char)
    (listing : List (List Char)) : ScanAcc :=
  listing.foldl (scanStep fs exec parent) initAcc

/-- The report entry `main` would produce for one listing item: `some`
exactly when the item is a directory, is a git repository, and its
status parse is non-absent. -/
def reportEntry (fs : FS) (exec : List Char → ExecOutcome) (parent : List Char)
    (item : List Char) : Option RepoReport :=
  let p := os_path_join parent item
  if os_path_isdir fs p then
    if is_git_repo fs p then
      match (get_git_status p (exec p)).1 with
      | some si => some ⟨item, p, si⟩
      | none => none
    else none
  else none

/-- Concrete scenario: the parent directory scanned in the end-to-end
example. -/
def scParent : List Char := "/p".data

/-- Concrete scenario: a filesystem with three sibling repositories,
each containing a `.git` directory. -/
def scFS : FS :=
  ⟨["/p/r1".data, "/p/r1/.git".data, "/p/r2".data, "/p/r2/.git".data,
    "/p/r3".data, "/p/r3/.git".data]⟩

/-- Concrete scenario: `git status` output for two clean repositories
and one repository with two untracked files. -/
def scExec : List Char → ExecOutcome := fun p =>
  if p = "/p/r2".data then
    ExecOutcome.completed 0 "Untracked files:\n\tb.txt\n\tc.txt".data
  else
    ExecOutcome.completed 0 "nothing to commit, working tree clean".data

/-- Concrete scenario: the listing of the parent directory. -/
def scListing : List (List Char) := ["r1".data, "r2".data, "r3".data]

end CheckGit

namespace CheckGit

lemma containsSub_iff {pat s : List Char} : containsSub pat s = true ↔ pat <:+: s := by
  simp [containsSub]

lemma mem_of_containsSub {pat s : List Char} (h : containsSub pat s = true) :
    ∀ c ∈ pat, c ∈ s :=
  fun _ hc => (containsSub_iff.mp h).sublist.subset hc

lemma pyStrip_eq_nil_iff {s : List Char} :
    pyStrip s = [] ↔ ∀ c ∈ s, c.isWhitespace = true := by
  unfold pyStrip
  rw [List.reverse_eq_nil_iff, List.dropWhile_eq_nil_iff]
  constructor
  · intro h c hc
    rcases List.mem_append.mp
        ((List.takeWhile_append_dropWhile (p := Char.isWhitespace) (l := s)) ▸ hc) with
      h1 | h2
    · exact List.mem_takeWhile_imp h1
    · exact h (c) (List.mem_reverse.mpr h2)
  · intro h c hc
    exact h c (List.dropWhile_sublist _ |>.subset (List.mem_reverse.mp hc))

lemma containsSub_eq_false_of_blank {pat s : List Char} (hs : pyStrip s = [])
    {c : Char} (hc : c ∈ pat) (hw : c.isWhitespace = false) :
    containsSub pat s = false := by
  cases h : containsSub pat s with
  | false => rfl
  | true =>
      have := pyStrip_eq_nil_iff.mp hs c (mem_of_containsSub h c hc)
      rw [hw] at this
      exact absurd this (by simp)

lemma headerAny_eq_false_iff {l : List Char} :
    headerAny l = false ↔
      containsSub headerStaged l = false ∧ containsSub headerModified l = false ∧
        containsSub headerUntracked l = false := by
  unfold headerAny
  simp [Bool.or_eq_false_iff, and_assoc]

lemma headerAny_blank {s : List Char} (hs : pyStrip s = []) : headerAny s = false := by
  rw [headerAny_eq_false_iff]
  exact ⟨containsSub_eq_false_of_blank hs (c := 'C') (by decide) (by decide),
    containsSub_eq_false_of_blank hs (c := 'C') (by decide) (by decide),
    containsSub_eq_false_of_blank hs (c := 'U') (by decide) (by decide)⟩

end CheckGit

namespace CheckGit

lemma stepLine_blank {st : ParseState} {b : List Char} (hb : pyStrip b = []) :
    stepLine st b = st := by
  have hh := headerAny_eq_false_iff.mp (headerAny_blank hb)
  unfold stepLine
  rw [hh.1, hh.2.1, hh.2.2]
  simp only [Bool.false_eq_true, if_false]
  cases hcur : st.current with
  | none => rfl
  | some sec => simp [hb, extractEntry]

lemma stepLine_noSection {st : ParseState} {l : List Char}
    (hcur : st.current = none) (hh : headerAny l = false) : stepLine st l = st := by
  obtain ⟨h1, h2, h3⟩ := headerAny_eq_false_iff.mp hh
  unfold stepLine
  rw [h1, h2, h3]
  simp only [Bool.false_eq_true, if_false, hcur]

lemma foldl_stepLine_noSection :
    ∀ (ls : List (List Char)) (st : ParseState), st.current = none →
      (∀ l ∈ ls, headerAny l = false) → ls.foldl stepLine st = st := by
  intro ls
  induction ls with
  | nil => intro st _ _; rfl
  | cons l ls ih =>
      intro st hcur hh
      rw [List.foldl_cons, stepLine_noSection hcur (hh l (by simp))]
      exact ih st hcur (fun l2 hl2 => hh l2 (by simp [hl2]))

/-- C3: a blank line (a line whose stripped form is empty) leaves the
parser state completely unchanged — it neither ends the active section
nor records an entry — so any line processed right after the blank line
is handled exactly as if the blank line were absent, in particular an
indented entry line is still recorded under the section that was active
before the blank line. -/
theorem spec_C3 (st : ParseState) (b : List Char) (hb : pyStrip b = []) :
    stepLine st b = st ∧ ∀ l, stepLine (stepLine st b) l = stepLine st l := by
  refine ⟨stepLine_blank hb, fun l => ?_⟩
  rw [stepLine_blank hb]

/-- Closed witness for C3: a blank line in the middle of the staged
section changes nothing, and the tab-indented line after it is still
recorded as staged. -/
theorem spec_C3_witness :
    stepLine ⟨emptyInfo, some Sec.staged⟩ "  ".data = ⟨emptyInfo, some Sec.staged⟩ ∧
      stepLine (stepLine ⟨emptyInfo, some Sec.staged⟩ "  ".data) "\ta.txt".data =
        stepLine ⟨emptyInfo, some Sec.staged⟩ "\ta.txt".data := by
  have h := spec_C3 ⟨emptyInfo, some Sec.staged⟩ "  ".data (by decide)
  exact ⟨h.1, h.2 "\ta.txt".data⟩

/-- C2: a non-blank line with no tab and no two-space indentation that
contains none of the three hint phrases and none of the three section
headers sets the current section to `none`, and afterwards no later
line changes the state at all (in particular no indented line is
recorded in any result sequence) until a line containing one of the
three section headers occurs. -/
theorem spec_C2 (st : ParseState) (sec : Sec) (l : List Char)
    (hcur : st.current = some sec)
    (hh : headerAny l = false)
    (hnb : pyStrip l ≠ [])
    (ht : ¬ "\t".data <+: l)
    (hsp : ¬ "  ".data <+: l)
    (hhint : hintLine l = false) :
    stepLine st l = { st with current := none } ∧
      ∀ rest : List (List Char), (∀ l2 ∈ rest, headerAny l2 = false) →
        rest.foldl stepLine (stepLine st l) = { st with current := none } := by
  obtain ⟨h1, h2, h3⟩ := headerAny_eq_false_iff.mp hh
  have hstep : stepLine st l = { st with current := none } := by
    unfold stepLine
    rw [h1, h2, h3]
    simp only [Bool.false_eq_true, if_false, hcur]
    rw [if_neg hnb, if_pos ⟨ht, hsp⟩, hhint]
    simp
  refine ⟨hstep, fun rest hrest => ?_⟩
  rw [hstep]
  exact foldl_stepLine_noSection rest _ rfl hrest

/-- Closed witness for C2: in an active staged section, the line `x`
terminates the section, and the later tab-indented line is not
recorded anywhere. -/
theorem spec_C2_witness :
    stepLine ⟨emptyInfo, some Sec.staged⟩ "x".data = ⟨emptyInfo, none⟩ ∧
      ["\ty.txt".data].foldl stepLine (stepLine ⟨emptyInfo, some Sec.staged⟩ "x".data) =
        ⟨emptyInfo, none⟩ := by
  have h := spec_C2 ⟨emptyInfo, some Sec.staged⟩ Sec.staged "x".data rfl (by decide)
    (by decide) (by decide) (by decide) (by decide)
  exact ⟨h.1, h.2 ["\ty.txt".data] (by decide)⟩

/-- C1: end-to-end scenario — the input consisting of the staged
header, a tab-indented `modified:   a.txt` line, a blank line, the
untracked header and a tab-indented `b.txt` line parses to the report
with staged = [`modified: a.txt`], modified = [] and
untracked = [`b.txt`]. -/
theorem spec_C1 :
    get_git_status_parse
        ("Changes to be committed:\n\tmodified:   a.txt\n\nUntracked files:\n\tb.txt").data =
      some ⟨[], ["modified: a.txt".data], ["b.txt".data]⟩ := by
  decide

end CheckGit

namespace CheckGit

lemma splitFirstColon_eq_some :
    ∀ {s a b : List Char}, splitFirstColon s = some (a, b) →
      s = a ++ ':' :: b ∧ ':' ∉ a := by
  intro s
  induction s with
  | nil => intro a b h; exact absurd h (by simp [splitFirstColon])
  | cons c cs ih =>
      intro a b h
      rw [splitFirstColon] at h
      by_cases hc : c = ':'
      · rw [if_pos hc] at h
        rw [Option.some_inj] at h
        injection h with h1 h2
        subst h1
        subst h2
        subst hc
        exact ⟨rfl, by simp⟩
      · rw [if_neg hc] at h
        cases hsp : splitFirstColon cs with
        | none => rw [hsp] at h; exact absurd h (by simp)
        | some p =>
            obtain ⟨a2, b2⟩ := p
            rw [hsp] at h
            replace h : some (c :: a2, b2) = some (a, b) := h
            rw [Option.some_inj] at h
            injection h with h1 h2
            subst h1
            subst h2
            obtain ⟨hcs, hna⟩ := ih hsp
            refine ⟨by rw [hcs]; rfl, ?_⟩
            intro hmem
            rcases List.mem_cons.mp hmem with h1 | h1
            · exact hc h1.symm
            · exact hna h1

lemma splitFirstColon_of_not_mem :
    ∀ {s : List Char}, ':' ∉ s → splitFirstColon s = none := by
  intro s
  induction s with
  | nil => intro _; rfl
  | cons c cs ih =>
      intro h
      have hc : ¬ c = ':' := fun hc => h (by simp [hc])
      rw [splitFirstColon, if_neg hc, ih (fun hm => h (by simp [hm]))]
      rfl

lemma splitFirstColon_append :
    ∀ {a : List Char} (b : List Char), ':' ∉ a →
      splitFirstColon (a ++ ':' :: b) = some (a, b) := by
  intro a
  induction a with
  | nil => intro b _; simp [splitFirstColon]
  | cons c cs ih =>
      intro b h
      have hc : ¬ c = ':' := fun hc => h (by simp [hc])
      have hcs : ':' ∉ cs := fun hm => h (by simp [hm])
      show splitFirstColon (c :: (cs ++ ':' :: b)) = some (c :: cs, b)
      rw [splitFirstColon, if_neg hc, ih b hcs]
      rfl

/-- C4: the value recorded for an entry line of the staged or modified
section is computed from the stripped line as follows — when the
stripped line decomposes as `a ++ ":" ++ b` with no colon in `a` (that
is, it is split into exactly two parts at its first colon), the stored
string is the stripped prefix `a`, then a colon and a space, then the
stripped remainder `b`; when the stripped line contains no colon, the
stripped line itself is stored verbatim. -/
theorem spec_C4 (sec : Sec) (hsec : sec = Sec.staged ∨ sec = Sec.modified)
    (s a b : List Char) :
    (s = a ++ ':' :: b → ':' ∉ a →
        entryValue sec s = pyStrip a ++ ':' :: ' ' :: pyStrip b) ∧
      (':' ∉ s → entryValue sec s = s) := by
  constructor
  · intro hs hna
    subst hs
    rcases hsec with rfl | rfl <;>
      simp only [entryValue, splitFirstColon_append b hna]
  · intro hns
    rcases hsec with rfl | rfl <;>
      simp only [entryValue, splitFirstColon_of_not_mem hns]

/-- Closed witness for C4: the staged entry `modified:   a.txt` is
stored as `modified: a.txt`, and a colon-free modified entry is stored
verbatim. -/
theorem spec_C4_witness :
    entryValue Sec.staged "modified:   a.txt".data = "modified: a.txt".data ∧
      entryValue Sec.modified "abc".data = "abc".data := by
  have h1 := spec_C4 Sec.staged (Or.inl rfl) "modified:   a.txt".data
    "modified".data "   a.txt".data
  have h2 := spec_C4 Sec.modified (Or.inr rfl) "abc".data [] []
  constructor
  · rw [h1.1 (by decide) (by decide)]; decide
  · exact h2.2 (by decide)

end CheckGit

namespace CheckGit

lemma prefix_head {c : Char} {t m : List Char} (h : c :: t <+: m) :
    m.head? = some c := by
  obtain ⟨r, rfl⟩ := h
  rfl

lemma paren_prefix_iff {m : List Char} : "(".data <+: m ↔ m.head? = some '(' := by
  constructor
  · intro h
    exact prefix_head h
  · intro h
    cases m with
    | nil => exact absurd h (by simp)
    | cons c t =>
        rw [List.head?_cons, Option.some_inj] at h
        subst h
        exact ⟨t, rfl⟩

lemma dropWhile_head_not {p : Char → Bool} :
    ∀ {l : List Char} {c : Char}, (l.dropWhile p).head? = some c → p c = false := by
  intro l
  induction l with
  | nil => intro c h; exact absurd h (by simp [List.dropWhile])
  | cons a t ih =>
      intro c h
      rw [List.dropWhile_cons] at h
      by_cases hp : p a = true
      · rw [if_pos hp] at h
        exact ih h
      · rw [if_neg hp] at h
        rw [List.head?_cons, Option.some_inj] at h
        subst h
        simpa using hp

lemma pyStrip_prefix (s : List Char) :
    pyStrip s <+: s.dropWhile Char.isWhitespace := by
  unfold pyStrip
  refine List.reverse_suffix.mp ?_
  rw [List.reverse_reverse]
  exact List.dropWhile_suffix _

lemma pyStrip_head_not_ws {s t : List Char} {c : Char} (h : pyStrip s = c :: t) :
    c.isWhitespace = false := by
  have hp := pyStrip_prefix s
  rw [h] at hp
  exact dropWhile_head_not (prefix_head hp)

lemma pyStrip_cons_head {c : Char} {t : List Char} (hw : c.isWhitespace = false)
    {d : Char} {r : List Char} (h : pyStrip (c :: t) = d :: r) : d = c := by
  have hp := pyStrip_prefix (c :: t)
  rw [List.dropWhile_cons, if_neg (by simp [hw])] at hp
  rw [h] at hp
  have := prefix_head hp
  rw [List.head?_cons, Option.some_inj] at this
  exact this.symm

lemma colonJoin_ok {a b stripped : List Char}
    (hsp : splitFirstColon stripped = some (a, b))
    (hpar : ¬ "(".data <+: stripped)
    (hhead : ∀ c t, stripped = c :: t → c.isWhitespace = false) :
    pyStrip a ++ ':' :: ' ' :: pyStrip b ≠ [] ∧
      ¬ "(".data <+: (pyStrip a ++ ':' :: ' ' :: pyStrip b) := by
  obtain ⟨hdec, hna⟩ := splitFirstColon_eq_some hsp
  constructor
  · cases hpa : pyStrip a <;> simp
  · rw [paren_prefix_iff]
    cases hpa : pyStrip a with
    | nil => simp
    | cons d r =>
        cases a with
        | nil => exact absurd hpa (by simp [pyStrip])
        | cons c a2 =>
            have hcs : stripped = c :: (a2 ++ ':' :: b) := by rw [hdec]; rfl
            have hcw : c.isWhitespace = false := hhead c _ hcs
            have hd : d = c := pyStrip_cons_head hcw hpa
            have hcpar : ¬ c = '(' := by
              intro hcc
              exact hpar (by rw [paren_prefix_iff, hcs, hcc]; rfl)
            intro hcontra
            rw [List.cons_append, List.head?_cons, Option.some_inj] at hcontra
            exact hcpar (hd ▸ hcontra)

lemma entryValue_pyStrip_ok (sec : Sec) {line : List Char}
    (hne : pyStrip line ≠ []) (hpar : ¬ "(".data <+: pyStrip line) :
    entryValue sec (pyStrip line) ≠ [] ∧
      ¬ "(".data <+: entryValue sec (pyStrip line) := by
  have hhead : ∀ c t, pyStrip line = c :: t → c.isWhitespace = false :=
    fun c t h => pyStrip_head_not_ws h
  cases sec with
  | untracked => exact ⟨hne, hpar⟩
  | staged =>
      cases hsp : splitFirstColon (pyStrip line) with
      | none => simpa [entryValue, hsp] using And.intro hne hpar
      | some p =>
          obtain ⟨a, b⟩ := p
          simpa [entryValue, hsp] using colonJoin_ok hsp hpar hhead
  | modified =>
      cases hsp : splitFirstColon (pyStrip line) with
      | none => simpa [entryValue, hsp] using And.intro hne hpar
      | some p =>
          obtain ⟨a, b⟩ := p
          simpa [entryValue, hsp] using colonJoin_ok hsp hpar hhead

end CheckGit

namespace CheckGit

lemma mem_appendEntry {info : StatusInfo} {sec2 sec : Sec} {v s : List Char}
    (h : s ∈ secList (appendEntry info sec2 v) sec) :
    s ∈ secList info sec ∨ (sec = sec2 ∧ s = v) := by
  cases sec <;> cases sec2 <;>
    simp_all [appendEntry, secList, List.mem_append]

lemma mem_stepLine {st : ParseState} {l : List Char} {sec : Sec} {s : List Char}
    (h : s ∈ secList (stepLine st l).info sec) :
    s ∈ secList st.info sec ∨
      (st.current = some sec ∧ headerAny l = false ∧ pyStrip l ≠ [] ∧
        ¬ "(".data <+: pyStrip l ∧ s = entryValue sec (pyStrip l)) := by
  unfold stepLine at h
  by_cases h1 : containsSub headerStaged l = true
  · rw [if_pos h1] at h
    exact Or.inl h
  · rw [if_neg h1] at h
    by_cases h2 : containsSub headerModified l = true
    · rw [if_pos h2] at h
      exact Or.inl h
    · rw [if_neg h2] at h
      by_cases h3 : containsSub headerUntracked l = true
      · rw [if_pos h3] at h
        exact Or.inl h
      · rw [if_neg h3] at h
        have hh : headerAny l = false := headerAny_eq_false_iff.mpr
          ⟨by simpa using h1, by simpa using h2, by simpa using h3⟩
        cases hcur : st.current with
        | none =>
            rw [hcur] at h
            exact Or.inl h
        | some sec2 =>
            rw [hcur] at h
            replace h : s ∈ secList
                (if pyStrip l = [] then extractEntry st sec2 l
                 else if ¬ "\t".data <+: l ∧ ¬ "  ".data <+: l then
                   if hintLine l = true then st else { st with current := none }
                 else extractEntry st sec2 l).info sec := h
            by_cases hb : pyStrip l = []
            · rw [if_pos hb] at h
              unfold extractEntry at h
              rw [if_neg (by simp [hb])] at h
              exact Or.inl h
            · rw [if_neg hb] at h
              by_cases hind : ¬ "\t".data <+: l ∧ ¬ "  ".data <+: l
              · rw [if_pos hind] at h
                by_cases hhint : hintLine l = true
                · rw [if_pos hhint] at h
                  exact Or.inl h
                · rw [if_neg hhint] at h
                  exact Or.inl h
              · rw [if_neg hind] at h
                unfold extractEntry at h
                by_cases hg : pyStrip l ≠ [] ∧ ¬ "(".data <+: pyStrip l
                · rw [if_pos hg] at h
                  rcases mem_appendEntry h with h4 | ⟨heq, hs⟩
                  · exact Or.inl h4
                  · subst heq
                    exact Or.inr ⟨rfl, hh, hg.1, hg.2, hs⟩
                · rw [if_neg hg] at h
                  exact Or.inl h

lemma mem_foldl_stepLine :
    ∀ (ls : List (List Char)) (st : ParseState) (sec : Sec) (s : List Char),
      s ∈ secList ((ls.foldl stepLine st).info) sec →
      s ∈ secList st.info sec ∨
        ∃ i, ∃ hi : i < ls.length,
          ((ls.take i).foldl stepLine st).current = some sec ∧
          headerAny (ls.get ⟨i, hi⟩) = false ∧
          pyStrip (ls.get ⟨i, hi⟩) ≠ [] ∧
          ¬ "(".data <+: pyStrip (ls.get ⟨i, hi⟩) ∧
          s = entryValue sec (pyStrip (ls.get ⟨i, hi⟩)) := by
  intro ls
  induction ls with
  | nil =>
      intro st sec s h
      exact Or.inl h
  | cons l ls ih =>
      intro st sec s h
      rw [List.foldl_cons] at h
      rcases ih (stepLine st l) sec s h with h2 | ⟨i, hi, hcur, hha, hnb, hpar, hval⟩
      · rcases mem_stepLine h2 with h3 | ⟨hc, hha, hnb, hpar, hval⟩
        · exact Or.inl h3
        · refine Or.inr ⟨0, by simp, ?_, ?_, ?_, ?_, ?_⟩
          · simpa using hc
          · simpa using hha
          · simpa using hnb
          · simpa using hpar
          · simpa using hval
      · refine Or.inr ⟨i + 1, by simpa using hi, ?_, ?_, ?_, ?_, ?_⟩
        · simpa [List.foldl_cons] using hcur
        · simpa using hha
        · simpa using hnb
        · simpa using hpar
        · simpa using hval

end CheckGit

namespace CheckGit

/-- C5 counterexample: the claim says every string in the three result
sequences is a line of the input, trimmed. For the input consisting of
the staged header followed by the tab-indented line
`modified:   a.txt` (three spaces after the colon), the staged sequence
contains `modified: a.txt`, which is not the trimmed form of any line
of the input: the parser normalises the spacing around the first colon
when it stores staged and modified entries. -/
theorem spec_C5_cex :
    "modified: a.txt".data ∈
        (parseLines (pySplit '\n'
          ("Changes to be committed:\n\tmodified:   a.txt").data)).info.staged ∧
      (pySplit '\n' ("Changes to be committed:\n\tmodified:   a.txt").data).all
        (fun l => pyStrip l ≠ "modified: a.txt".data) = true := by
  decide

/-- C5 amended: every string in a result sequence of the parser comes
from a line of the input that was processed while the corresponding
section was active (that is, after the section header and before the
terminating line), was not itself a header line, and was non-blank; the
stored string is `entryValue` applied to the trimmed line — the trimmed
line itself for untracked entries and for staged or modified entries
without a colon, and the colon-normalised form
`prefix.strip() ++ ": " ++ path.strip()` for staged or modified entries
with a colon. -/
theorem spec_C5_amended (output : List Char) (si : StatusInfo) (sec : Sec)
    (s : List Char) (hres : get_git_status_parse output = some si)
    (hmem : s ∈ secList si sec) :
    ∃ i, ∃ hi : i < (pySplit '\n' output).length,
      (parseLines ((pySplit '\n' output).take i)).current = some sec ∧
      headerAny ((pySplit '\n' output).get ⟨i, hi⟩) = false ∧
      pyStrip ((pySplit '\n' output).get ⟨i, hi⟩) ≠ [] ∧
      s = entryValue sec (pyStrip ((pySplit '\n' output).get ⟨i, hi⟩)) := by
  unfold get_git_status_parse at hres
  split at hres
  · rw [Option.some_inj] at hres
    subst hres
    rcases mem_foldl_stepLine (pySplit '\n' output) initState sec s hmem with
      h | ⟨i, hi, hcur, hha, hnb, _, hval⟩
    · cases sec <;> exact absurd h (by simp [secList, initState, emptyInfo])
    · exact ⟨i, hi, hcur, hha, hnb, hval⟩
  · exact absurd hres (by simp)

/-- Closed witness for the amended C5, at the staged entry of the
counterexample input. -/
theorem spec_C5_witness :
    ∃ i, ∃ hi : i <
        (pySplit '\n' ("Changes to be committed:\n\tmodified:   a.txt").data).length,
      (parseLines ((pySplit '\n'
          ("Changes to be committed:\n\tmodified:   a.txt").data).take i)).current =
          some Sec.staged ∧
      headerAny ((pySplit '\n'
          ("Changes to be committed:\n\tmodified:   a.txt").data).get ⟨i, hi⟩) = false ∧
      pyStrip ((pySplit '\n'
          ("Changes to be committed:\n\tmodified:   a.txt").data).get ⟨i, hi⟩) ≠ [] ∧
      "modified: a.txt".data = entryValue Sec.staged
        (pyStrip ((pySplit '\n'
          ("Changes to be committed:\n\tmodified:   a.txt").data).get ⟨i, hi⟩)) :=
  spec_C5_amended ("Changes to be committed:\n\tmodified:   a.txt").data
    ⟨[], ["modified: a.txt".data], []⟩ Sec.staged "modified: a.txt".data
    (by decide) (by decide)

/-- C10: every string stored in any of the three result sequences of a
returned report is non-empty and does not begin with an opening
parenthesis character. -/
theorem spec_C10 (output : List Char) (si : StatusInfo)
    (hres : get_git_status_parse output = some si) (sec : Sec) (s : List Char)
    (hmem : s ∈ secList si sec) :
    s ≠ [] ∧ ¬ "(".data <+: s := by
  unfold get_git_status_parse at hres
  split at hres
  · rw [Option.some_inj] at hres
    subst hres
    rcases mem_foldl_stepLine (pySplit '\n' output) initState sec s hmem with
      h | ⟨i, hi, hcur, hha, hnb, hpar, hval⟩
    · cases sec <;> exact absurd h (by simp [secList, initState, emptyInfo])
    · rw [hval]
      exact entryValue_pyStrip_ok sec hnb hpar
  · exact absurd hres (by simp)

/-- Closed witness for C10, at the untracked entry of the C1 input. -/
theorem spec_C10_witness :
    "b.txt".data ≠ ([] : List Char) ∧ ¬ "(".data <+: "b.txt".data :=
  spec_C10
    ("Changes to be committed:\n\tmodified:   a.txt\n\nUntracked files:\n\tb.txt").data
    ⟨[], ["modified: a.txt".data], ["b.txt".data]⟩ (by decide) Sec.untracked
    "b.txt".data (by decide)

end CheckGit

namespace CheckGit

/-- C6: the parser returns the absent result exactly when all three
collected sequences are empty; in particular it is absent for every
input that contains none of the three section-header strings, and a
returned report always has at least one non-empty sequence. -/
theorem spec_C6 (output : List Char) :
    (get_git_status_parse output = none ↔
        (parseLines (pySplit '\n' output)).info = emptyInfo) ∧
      ((∀ l ∈ pySplit '\n' output, headerAny l = false) →
        get_git_status_parse output = none) ∧
      (∀ si, get_git_status_parse output = some si →
        si.staged ≠ [] ∨ si.modified ≠ [] ∨ si.untracked ≠ []) := by
  refine ⟨?_, ?_, ?_⟩
  · unfold get_git_status_parse
    by_cases hcond : (parseLines (pySplit '\n' output)).info.modified ≠ [] ∨
        (parseLines (pySplit '\n' output)).info.staged ≠ [] ∨
        (parseLines (pySplit '\n' output)).info.untracked ≠ []
    · rw [if_pos hcond]
      constructor
      · intro h
        exact absurd h (by simp)
      · intro h
        rw [h] at hcond
        exact absurd hcond (by simp [emptyInfo])
    · rw [if_neg hcond]
      simp only [not_or, not_not] at hcond
      obtain ⟨hm, hs, hu⟩ := hcond
      constructor
      · intro _
        have hmk : (⟨(parseLines (pySplit '\n' output)).info.modified,
            (parseLines (pySplit '\n' output)).info.staged,
            (parseLines (pySplit '\n' output)).info.untracked⟩ : StatusInfo) =
            emptyInfo := by
          rw [hm, hs, hu]
          rfl
        exact hmk
      · intro _
        rfl
  · intro hnh
    have hfold : parseLines (pySplit '\n' output) = initState :=
      foldl_stepLine_noSection _ initState rfl hnh
    unfold get_git_status_parse
    rw [hfold]
    simp [initState, emptyInfo]
  · intro si h
    unfold get_git_status_parse at h
    split at h
    · rename_i hcond
      rw [Option.some_inj] at h
      subst h
      tauto
    · exact absurd h (by simp)

/-- Closed witness for C6: a clean-tree status text with no section
header parses to the absent result. -/
theorem spec_C6_witness :
    get_git_status_parse "nothing to commit, working tree clean".data = none := by
  have h := spec_C6 "nothing to commit, working tree clean".data
  exact h.2.1 (by decide)

end CheckGit

namespace CheckGit

lemma scanStep_git_repos (fs : FS) (exec : List Char → ExecOutcome)
    (parent : List Char) (acc : ScanAcc) (item : List Char) :
    (scanStep fs exec parent acc item).git_repos =
      acc.git_repos ++
        (if os_path_isdir fs (os_path_join parent item) &&
            is_git_repo fs (os_path_join parent item) then [item] else []) := by
  unfold scanStep
  by_cases h1 : os_path_isdir fs (os_path_join parent item) = true
  · rw [if_neg (by simp [h1])]
    by_cases h2 : is_git_repo fs (os_path_join parent item) = true
    · rw [if_pos h2]
      cases hst : (get_git_status (os_path_join parent item)
          (exec (os_path_join parent item))).1 with
      | none => simp [hst, h1, h2]
      | some si => simp [hst, h1, h2]
    · rw [if_neg h2]
      simp [h1, h2]
  · rw [if_pos (by simp [h1])]
    simp [h1]

lemma scanStep_repos (fs : FS) (exec : List Char → ExecOutcome)
    (parent : List Char) (acc : ScanAcc) (item : List Char) :
    (scanStep fs exec parent acc item).repos_with_changes =
      acc.repos_with_changes ++ (reportEntry fs exec parent item).toList := by
  unfold scanStep reportEntry
  by_cases h1 : os_path_isdir fs (os_path_join parent item) = true
  · rw [if_neg (by simp [h1])]
    by_cases h2 : is_git_repo fs (os_path_join parent item) = true
    · rw [if_pos h2]
      cases hst : (get_git_status (os_path_join parent item)
          (exec (os_path_join parent item))).1 with
      | none => simp [hst, h1, h2]
      | some si => simp [hst, h1, h2]
    · rw [if_neg h2]
      simp [h1, h2]
  · rw [if_pos (by simp [h1])]
    simp [h1]

lemma scanStep_staged (fs : FS) (exec : List Char → ExecOutcome)
    (parent : List Char) (acc : ScanAcc) (item : List Char) :
    (scanStep fs exec parent acc item).total_staged_count =
      acc.total_staged_count +
        ((reportEntry fs exec parent item).toList.map
          (fun x => x.status.staged.length)).sum := by
  unfold scanStep reportEntry
  by_cases h1 : os_path_isdir fs (os_path_join parent item) = true
  · rw [if_neg (by simp [h1])]
    by_cases h2 : is_git_repo fs (os_path_join parent item) = true
    · rw [if_pos h2]
      cases hst : (get_git_status (os_path_join parent item)
          (exec (os_path_join parent item))).1 with
      | none => simp [hst, h1, h2]
      | some si => simp [hst, h1, h2]
    · rw [if_neg h2]
      simp [h1, h2]
  · rw [if_pos (by simp [h1])]
    simp [h1]

lemma scanStep_modified (fs : FS) (exec : List Char → ExecOutcome)
    (parent : List Char) (acc : ScanAcc) (item : List Char) :
    (scanStep fs exec parent acc item).total_modified_count =
      acc.total_modified_count +
        ((reportEntry fs exec parent item).toList.map
          (fun x => x.status.modified.length)).sum := by
  unfold scanStep reportEntry
  by_cases h1 : os_path_isdir fs (os_path_join parent item) = true
  · rw [if_neg (by simp [h1])]
    by_cases h2 : is_git_repo fs (os_path_join parent item) = true
    · rw [if_pos h2]
      cases hst : (get_git_status (os_path_join parent item)
          (exec (os_path_join parent item))).1 with
      | none => simp [hst, h1, h2]
      | some si => simp [hst, h1, h2]
    · rw [if_neg h2]
      simp [h1, h2]
  · rw [if_pos (by simp [h1])]
    simp [h1]

lemma scanStep_untracked (fs : FS) (exec : List Char → ExecOutcome)
    (parent : List Char) (acc : ScanAcc) (item : List Char) :
    (scanStep fs exec parent acc item).total_untracked_count =
      acc.total_untracked_count +
        ((reportEntry fs exec parent item).toList.map
          (fun x => x.status.untracked.length)).sum := by
  unfold scanStep reportEntry
  by_cases h1 : os_path_isdir fs (os_path_join parent item) = true
  · rw [if_neg (by simp [h1])]
    by_cases h2 : is_git_repo fs (os_path_join parent item) = true
    · rw [if_pos h2]
      cases hst : (get_git_status (os_path_join parent item)
          (exec (os_path_join parent item))).1 with
      | none => simp [hst, h1, h2]
      | some si => simp [hst, h1, h2]
    · rw [if_neg h2]
      simp [h1, h2]
  · rw [if_pos (by simp [h1])]
    simp [h1]

end CheckGit

namespace CheckGit

lemma foldl_scan_git_repos (fs : FS) (exec : List Char → ExecOutcome)
    (parent : List Char) :
    ∀ (listing : List (List Char)) (acc : ScanAcc),
      (listing.foldl (scanStep fs exec parent) acc).git_repos =
        acc.git_repos ++ listing.filter (fun item =>
          os_path_isdir fs (os_path_join parent item) &&
            is_git_repo fs (os_path_join parent item)) := by
  intro listing
  induction listing with
  | nil => intro acc; simp
  | cons item rest ih =>
      intro acc
      rw [List.foldl_cons, ih (scanStep fs exec parent acc item),
        scanStep_git_repos, List.filter_cons]
      by_cases hc : (os_path_isdir fs (os_path_join parent item) &&
          is_git_repo fs (os_path_join parent item)) = true
      · simp [hc, List.append_assoc]
      · simp [hc]

lemma foldl_scan_repos (fs : FS) (exec : List Char → ExecOutcome)
    (parent : List Char) :
    ∀ (listing : List (List Char)) (acc : ScanAcc),
      (listing.foldl (scanStep fs exec parent) acc).repos_with_changes =
        acc.repos_with_changes ++ listing.filterMap (reportEntry fs exec parent) := by
  intro listing
  induction listing with
  | nil => intro acc; simp
  | cons item rest ih =>
      intro acc
      rw [List.foldl_cons, ih (scanStep fs exec parent acc item),
        scanStep_repos, List.filterMap_cons]
      cases hr : reportEntry fs exec parent item with
      | none => simp [hr]
      | some r => simp [hr, List.append_assoc]

lemma foldl_scan_staged (fs : FS) (exec : List Char → ExecOutcome)
    (parent : List Char) :
    ∀ (listing : List (List Char)) (acc : ScanAcc),
      (listing.foldl (scanStep fs exec parent) acc).total_staged_count =
        acc.total_staged_count +
          ((listing.filterMap (reportEntry fs exec parent)).map
            (fun x => x.status.staged.length)).sum := by
  intro listing
  induction listing with
  | nil => intro acc; simp
  | cons item rest ih =>
      intro acc
      rw [List.foldl_cons, ih (scanStep fs exec parent acc item),
        scanStep_staged, List.filterMap_cons]
      cases hr : reportEntry fs exec parent item with
      | none => simp [hr]
      | some r => simp [hr, Nat.add_assoc]

lemma foldl_scan_modified (fs : FS) (exec : List Char → ExecOutcome)
    (parent : List Char) :
    ∀ (listing : List (List Char)) (acc : ScanAcc),
      (listing.foldl (scanStep fs exec parent) acc).total_modified_count =
        acc.total_modified_count +
          ((listing.filterMap (reportEntry fs exec parent)).map
            (fun x => x.status.modified.length)).sum := by
  intro listing
  induction listing with
  | nil => intro acc; simp
  | cons item rest ih =>
      intro acc
      rw [List.foldl_cons, ih (scanStep fs exec parent acc item),
        scanStep_modified, List.filterMap_cons]
      cases hr : reportEntry fs exec parent item with
      | none => simp [hr]
      | some r => simp [hr, Nat.add_assoc]

lemma foldl_scan_untracked (fs : FS) (exec : List Char → ExecOutcome)
    (parent : List Char) :
    ∀ (listing : List (List Char)) (acc : ScanAcc),
      (listing.foldl (scanStep fs exec parent) acc).total_untracked_count =
        acc.total_untracked_count +
          ((listing.filterMap (reportEntry fs exec parent)).map
            (fun x => x.status.untracked.length)).sum := by
  intro listing
  induction listing with
  | nil => intro acc; simp
  | cons item rest ih =>
      intro acc
      rw [List.foldl_cons, ih (scanStep fs exec parent acc item),
        scanStep_untracked, List.filterMap_cons]
      cases hr : reportEntry fs exec parent item with
      | none => simp [hr]
      | some r => simp [hr, Nat.add_assoc]

/-- C8: an item of the parent listing is classified as a git repository
(appears in `git_repos`) exactly when its path is a directory and a
directory named `.git` exists directly inside it; in particular
non-directory entries are never classified as repositories. -/
theorem spec_C8 (fs : FS) (exec : List Char → ExecOutcome) (parent : List Char)
    (listing : List (List Char)) (item : List Char) :
    item ∈ (main_scan fs exec parent listing).git_repos ↔
      item ∈ listing ∧
        os_path_isdir fs (os_path_join parent item) = true ∧
        os_path_isdir fs
          (os_path_join (os_path_join parent item) ".git".data) = true := by
  unfold main_scan
  rw [foldl_scan_git_repos]
  simp [initAcc, List.mem_filter, is_git_repo, Bool.and_eq_true, and_assoc]

/-- C9: the final report lists exactly the listing items that are git
repositories with a non-absent status report, in listing order, and each
of the three totals equals the sum over the reported repositories of the
length of the corresponding sequence; in the concrete scenario with
three candidate repositories of which only one has changes, exactly
that repository is listed and the totals are its three counts. -/
theorem spec_C9 :
    (∀ (fs : FS) (exec : List Char → ExecOutcome) (parent : List Char)
        (listing : List (List Char)),
      (main_scan fs exec parent listing).repos_with_changes =
          listing.filterMap (reportEntry fs exec parent) ∧
        (main_scan fs exec parent listing).total_staged_count =
          ((main_scan fs exec parent listing).repos_with_changes.map
            (fun x => x.status.staged.length)).sum ∧
        (main_scan fs exec parent listing).total_modified_count =
          ((main_scan fs exec parent listing).repos_with_changes.map
            (fun x => x.status.modified.length)).sum ∧
        (main_scan fs exec parent listing).total_untracked_count =
          ((main_scan fs exec parent listing).repos_with_changes.map
            (fun x => x.status.untracked.length)).sum) ∧
      main_scan scFS scExec scParent scListing =
        ⟨["r1".data, "r2".data, "r3".data],
          [⟨"r2".data, "/p/r2".data, ⟨[], [], ["b.txt".data, "c.txt".data]⟩⟩],
          0, 0, 2, []⟩ := by
  constructor
  · intro fs exec parent listing
    have hrep := foldl_scan_repos fs exec parent listing initAcc
    refine ⟨?_, ?_, ?_, ?_⟩
    · unfold main_scan
      rw [hrep]
      simp [initAcc]
    · unfold main_scan
      rw [foldl_scan_staged, hrep]
      simp [initAcc]
    · unfold main_scan
      rw [foldl_scan_modified, hrep]
      simp [initAcc]
    · unfold main_scan
      rw [foldl_scan_untracked, hrep]
      simp [initAcc]
  · decide

end CheckGit

namespace CheckGit

lemma reportEntry_failed {fs : FS} {exec : List Char → ExecOutcome}
    {parent item : List Char} {e : ExecOutcome}
    (hexec : exec (os_path_join parent item) = e)
    (hnone : (get_git_status (os_path_join parent item) e).1 = none) :
    reportEntry fs exec parent item = none := by
  show (if os_path_isdir fs (os_path_join parent item) = true then
      if is_git_repo fs (os_path_join parent item) = true then
        match (get_git_status (os_path_join parent item)
            (exec (os_path_join parent item))).1 with
        | some si => some (RepoReport.mk item (os_path_join parent item) si)
        | none => none
      else none
    else none) = none
  rw [hexec, hnone]
  split
  · split
    · rfl
    · rfl
  · rfl

/-- C7 counterexample: the claim says a repository whose status command
exits non-zero is logged. For exit code 1 the result is indeed absent,
but nothing at all is printed (the log is empty): the code only prints
in the exception handler, not on a non-zero exit status. -/
theorem spec_C7_cex :
    (get_git_status "/p/r1".data (ExecOutcome.completed 1 [])).1 = none ∧
      (get_git_status "/p/r1".data (ExecOutcome.completed 1 [])).2 = [] := by
  decide

/-- C7 amended: if the external status command exits non-zero or raises
an execution error, the result for that repository is absent, it is
excluded from the report (the reported repositories and the three
totals are unchanged by its scan step) and the run continues with the
remaining listing items; however, an error message is printed if and
only if an execution error was raised — a plain non-zero exit status is
skipped silently. -/
theorem spec_C7_amended (p : List Char) (e : ExecOutcome)
    (hfail : execFailed e = true) :
    (get_git_status p e).1 = none ∧
      ((get_git_status p e).2 ≠ [] ↔ ∃ msg, e = ExecOutcome.raised msg) ∧
      ∀ (fs : FS) (exec : List Char → ExecOutcome) (parent item : List Char)
        (acc : ScanAcc) (rest : List (List Char)),
        exec (os_path_join parent item) = e →
          (item :: rest).foldl (scanStep fs exec parent) acc =
              rest.foldl (scanStep fs exec parent)
                (scanStep fs exec parent acc item) ∧
            (scanStep fs exec parent acc item).repos_with_changes =
              acc.repos_with_changes ∧
            (scanStep fs exec parent acc item).total_staged_count =
              acc.total_staged_count ∧
            (scanStep fs exec parent acc item).total_modified_count =
              acc.total_modified_count ∧
            (scanStep fs exec parent acc item).total_untracked_count =
              acc.total_untracked_count := by
  have hnone : ∀ q : List Char, (get_git_status q e).1 = none := by
    intro q
    cases e with
    | raised msg => rfl
    | completed rc out =>
        unfold execFailed at hfail
        rw [decide_eq_true_iff] at hfail
        show (if rc ≠ 0 then ((none : Option StatusInfo), ([] : List (List Char)))
          else (get_git_status_parse out, [])).1 = none
        rw [if_pos hfail]
  refine ⟨hnone p, ?_, ?_⟩
  · cases e with
    | raised msg =>
        constructor
        · intro _
          exact ⟨msg, rfl⟩
        · intro _
          simp [get_git_status, errorLog]
    | completed rc out =>
        unfold execFailed at hfail
        rw [decide_eq_true_iff] at hfail
        constructor
        · intro hne
          replace hne : (if rc ≠ 0 then ((none : Option StatusInfo),
              ([] : List (List Char)))
            else (get_git_status_parse out, [])).2 ≠ [] := hne
          rw [if_pos hfail] at hne
          exact absurd rfl hne
        · intro hex
          obtain ⟨msg, hmsg⟩ := hex
          exact absurd hmsg (by simp)
  · intro fs exec parent item acc rest hexec
    have hre : reportEntry fs exec parent item = none :=
      reportEntry_failed hexec (hnone _)
    refine ⟨List.foldl_cons _ _, ?_, ?_, ?_, ?_⟩
    · rw [scanStep_repos, hre]
      simp
    · rw [scanStep_staged, hre]
      simp
    · rw [scanStep_modified, hre]
      simp
    · rw [scanStep_untracked, hre]
      simp

/-- Closed witness for the amended C7: a raised execution error yields
an absent result, and the scan step for that repository adds nothing to
the reported repositories. -/
theorem spec_C7_witness :
    (get_git_status "/p/rx".data (ExecOutcome.raised "boom".data)).1 = none ∧
      (scanStep scFS (fun _ => ExecOutcome.raised "boom".data) "/p".data
          initAcc "rx".data).repos_with_changes = initAcc.repos_with_changes := by
  have h := spec_C7_amended "/p/rx".data (ExecOutcome.raised "boom".data) (by decide)
  exact ⟨h.1, (h.2.2 scFS (fun _ => ExecOutcome.raised "boom".data) "/p".data
    "rx".data initAcc [] rfl).2.1⟩

end CheckGit
